import Mathlib

set_option maxRecDepth 40000

/-!
Verification of the Mika bot (`src/bot.py`) against its specification.

The development shallowly embeds the pure decision logic of the bot:
  * the per-channel conversation history store and the append/trim logic of
    `get_gemini_response` (bot.py lines 80-135),
  * the JSON persistence layer `load_chat_history` / `_save_chat_history_sync`
    (bot.py lines 316-367), modelled over an explicit JSON value type,
  * the metadata resolver `get_link_metadata` (bot.py lines 151-258) and the
    image prober `get_image_dimensions` (bot.py lines 137-149), with network
    transport and URL joining as oracle parameters,
  * the description construction of `create_themed_embed` (bot.py lines 270-281).

Python string operations are modelled over `List Char` (Python `len` and
slicing count code points, exactly as `String.length`/`List.take` do here).
`str.lower`/`str.title` are modelled for ASCII letters, which is the alphabet
all decided conditions in the program use them on.
-/

/-! ## Python string primitives -/

/-- Python `str.strip()` on the underlying character list: drop whitespace
from both ends. -/
def trimChars (l : List Char) : List Char :=
  ((l.dropWhile Char.isWhitespace).reverse.dropWhile Char.isWhitespace).reverse

/-- Python `s.strip()`. -/
def pyStrip (s : String) : String := ⟨trimChars s.data⟩

/-- Worker for Python `str.replace`: scans left to right; `skip` counts
characters still to be consumed by an earlier match. -/
def replaceGo (pat rep : List Char) : List Char → Nat → List Char
  | [], _ => []
  | _ :: cs, skip + 1 => replaceGo pat rep cs skip
  | c :: cs, 0 =>
    if pat ≠ [] ∧ pat = (c :: cs).take pat.length then
      rep ++ replaceGo pat rep cs (pat.length - 1)
    else
      c :: replaceGo pat rep cs 0

/-- Python `s.replace(pat, rep)` (non-overlapping, left to right).  All call
sites in the program use a non-empty pattern, so the empty-pattern case never
arises and is mapped to the identity. -/
def pyReplace (s pat rep : String) : String :=
  ⟨replaceGo pat.data rep.data s.data 0⟩

/-- Python `s.replace(a, b)` for single characters (used for `-`/`_` → space). -/
def pyReplaceChar (s : String) (a b : Char) : String :=
  ⟨s.data.map (fun c => if c = a then b else c)⟩

/-- Python `s.split(sep)` for a single-character separator, on character
lists.  `"".split(sep) = [""]`, and empty fields are kept, as in Python. -/
def splitOnChar (sep : Char) (l : List Char) : List (List Char) :=
  l.foldr
    (fun c acc =>
      if c = sep then [] :: acc
      else
        match acc with
        | h :: t => (c :: h) :: t
        | [] => [[c]])
    [[]]

/-- Python `s.split(sep)` for a single-character separator. -/
def pySplit (s : String) (sep : Char) : List String :=
  (splitOnChar sep s.data).map (fun cs => (⟨cs⟩ : String))

/-- Python `s.lower()` (ASCII model). -/
def pyLower (s : String) : String := ⟨s.data.map Char.toLower⟩

/-- Worker for Python `str.title` (ASCII model): a letter is uppercased
exactly when the previous character is not a letter, and lowercased
otherwise. -/
def titleCaseGo : Bool → List Char → List Char
  | _, [] => []
  | prevAlpha, c :: cs =>
    (if c.isAlpha then (if prevAlpha then c.toLower else c.toUpper) else c)
      :: titleCaseGo c.isAlpha cs

/-- Python `s.title()` (ASCII model). -/
def pyTitle (s : String) : String := ⟨titleCaseGo false s.data⟩

/-- Python `s[:n]` (slice of the first `n` code points). -/
def pySlice (s : String) (n : Nat) : String := ⟨s.data.take n⟩

/-- Python `l[-n:]` on lists: the last `n` elements (the whole list when it
is shorter). -/
def pyTakeLast {α : Type} (n : Nat) (l : List α) : List α :=
  (l.reverse.take n).reverse

/-- Python `s.startswith(p)`. -/
def pyStartsWith (s p : String) : Bool :=
  decide (s.data.take p.data.length = p.data)

/-- Python `s.endswith(p)`. -/
def pyEndsWith (s p : String) : Bool :=
  decide (s.data.reverse.take p.data.length = p.data.reverse)

/-- Python `needle in hay` for strings: substring containment. -/
def pyContains (hay needle : String) : Bool :=
  hay.data.tails.any (fun t => decide (t.take needle.data.length = needle.data))

/-! ## Conversation history store (bot.py lines 59-135)

`channel_chat_history` is a Python dict from the integer channel id to a list
of `{role: ..., content: ...}` dicts.  A history entry is modelled by
`Turn`; the dict by an insertion-ordered association list. -/

/-- One stored history entry `{role: r, content: c}` (bot.py lines 119-120). -/
structure Turn where
  role : String
  content : String
deriving DecidableEq, Repr

/-- The in-memory `channel_chat_history` dict: insertion-ordered association
list from channel id to turn list. -/
abbrev Store : Type := List (Int × List Turn)

/-- Python `d[c]` lookup (first — and only — binding of the key). -/
def lookupStore : Store → Int → Option (List Turn)
  | [], _ => none
  | p :: ps, c => if p.1 = c then some p.2 else lookupStore ps c

/-- Python `d[c] = h`: update in place if the key exists (dict order kept),
otherwise append the new binding at the end. -/
def setStore : Store → Int → List Turn → Store
  | [], c, h => [(c, h)]
  | p :: ps, c, h => if p.1 = c then (c, h) :: ps else p :: setStore ps c h

/-- The history sequence stored for a channel (empty when the channel is not
yet registered). -/
def histOf (s : Store) (c : Int) : List Turn :=
  (lookupStore s c).getD []

/-- bot.py line 62: `MAX_HISTORY_TURNS = 6`. -/
def MAX_HISTORY_TURNS : Nat := 6

/-- bot.py line 135: the fixed persona-consistent apology returned when the
completion call raises. -/
def apology_message : String :=
  "Oh dear! Mika\x27s celestial processors encountered a tiny glitch trying to respond! üå∏ Hmph, please try asking me again! üíñ"

/-- bot.py lines 68-78: strip the bot's mention token and bare name from the
message and trim whitespace.  The mention strings (`f"<@{id}>"`,
`f"@{name}"`) are parameters; both are non-empty in the program. -/
def clean_message_content (mentionId mentionName messageContent : String) : String :=
  pyStrip (pyReplace (pyReplace messageContent mentionId "") mentionName "")

/-- bot.py lines 119-124: append the user turn and the model turn, then trim
to the most recent `MAX_HISTORY_TURNS * 2` entries when the bound is
exceeded (Python `history[-MAX_HISTORY_TURNS * 2:]`). -/
def appendAndTrim (h : List Turn) (userText modelText : String) : List Turn :=
  let h' := h ++ [⟨"user", userText⟩, ⟨"model", modelText⟩]
  if h'.length > MAX_HISTORY_TURNS * 2 then pyTakeLast (MAX_HISTORY_TURNS * 2) h' else h'

/-- bot.py lines 80-135, `get_gemini_response`.  The external Gemini call is
an oracle `completion` taking the channel history and the cleaned prompt;
`none` models the call raising (caught at line 132).  Returns the reply text
and the updated store.  NB the channel is registered with an empty history
(line 91) before the call is attempted, and the history mutation of lines
119-124 happens only after a successful call. -/
def get_gemini_response
    (completion : List Turn → String → Option String)
    (mentionId mentionName : String)
    (store : Store) (prompt_text : String) (channel_id : Int) : String × Store :=
  let cleaned := clean_message_content mentionId mentionName prompt_text
  if cleaned = "" then ("", store)
  else
    let store₁ := if (lookupStore store channel_id).isNone
                  then setStore store channel_id [] else store
    let history := (lookupStore store₁ channel_id).getD []
    match completion history cleaned with
    | some text => (text, setStore store₁ channel_id (appendAndTrim history cleaned text))
    | none => (apology_message, store₁)

/-! ## Persistence layer (bot.py lines 314-367)

Python values that can live in `channel_chat_history` and JSON values are
modelled explicitly.  `json.dump` stringifies non-string dict keys (an `int`
key is written as its decimal representation); `json.load` builds a Python
dict from the parsed object, last value winning on duplicate keys.  The file
itself is modelled by the JSON value it holds: writing the serialised text
and parsing it back is the identity on the JSON value. -/

inductive PyKey where
  | int (n : Int)
  | str (s : String)
deriving DecidableEq, Repr

inductive PyVal where
  | str (s : String)
  | int (n : Int)
  | list (elems : List PyVal)
  | dict (entries : List (PyKey × PyVal))

inductive Json where
  | str (s : String)
  | int (n : Int)
  | arr (elems : List Json)
  | obj (entries : List (String × Json))

def keyToString : PyKey → String
  | .int n => toString n
  | .str s => s

def pyToJson : PyVal → Json
  | .str s => .str s
  | .int n => .int n
  | .list xs => .arr (xs.attach.map (fun x => pyToJson x.1))
  | .dict kvs => .obj (kvs.attach.map (fun kv => (keyToString kv.1.1, pyToJson kv.1.2)))
termination_by v => sizeOf v
decreasing_by
  · have := List.sizeOf_lt_of_mem x.2
    simp only [PyVal.list.sizeOf_spec]
    omega
  · have := List.sizeOf_lt_of_mem kv.2
    have h2 : sizeOf kv.1.2 < sizeOf kv.1 := by
      cases kv.1 with
      | mk a b => simp
    simp only [PyVal.dict.sizeOf_spec]
    omega

theorem pyToJson_list (xs : List PyVal) :
    pyToJson (.list xs) = .arr (xs.map pyToJson) := by
  rw [pyToJson]
  simp [List.attach_map_coe]

theorem pyToJson_dict (kvs : List (PyKey × PyVal)) :
    pyToJson (.dict kvs) = .obj (kvs.map (fun kv => (keyToString kv.1, pyToJson kv.2))) := by
  rw [pyToJson]
  congr 1
  exact List.attach_map_coe kvs (fun kv => (keyToString kv.1, pyToJson kv.2))

def insertEntry (acc : List (String × PyVal)) (k : String) (v : PyVal) :
    List (String × PyVal) :=
  if acc.any (fun p => p.1 = k) then
    acc.map (fun p => if p.1 = k then (k, v) else p)
  else acc ++ [(k, v)]

def buildDict (l : List (String × PyVal)) : List (String × PyVal) :=
  l.foldl (fun acc p => insertEntry acc p.1 p.2) []

def jsonToPy : Json → PyVal
  | .str s => .str s
  | .int n => .int n
  | .arr xs => .list (xs.attach.map (fun x => jsonToPy x.1))
  | .obj kvs =>
    .dict ((buildDict (kvs.attach.map (fun kv => (kv.1.1, jsonToPy kv.1.2)))).map
      (fun p => (PyKey.str p.1, p.2)))
termination_by j => sizeOf j
decreasing_by
  · have := List.sizeOf_lt_of_mem x.2
    simp only [Json.arr.sizeOf_spec]
    omega
  · have := List.sizeOf_lt_of_mem kv.2
    have h2 : sizeOf kv.1.2 < sizeOf kv.1 := by
      cases kv.1 with
      | mk a b => simp
    simp only [Json.obj.sizeOf_spec]
    omega

theorem jsonToPy_arr (xs : List Json) :
    jsonToPy (.arr xs) = .list (xs.map jsonToPy) := by
  rw [jsonToPy]
  simp [List.attach_map_coe]

theorem jsonToPy_obj (kvs : List (String × Json)) :
    jsonToPy (.obj kvs) =
      .dict ((buildDict (kvs.map (fun kv => (kv.1, jsonToPy kv.2)))).map
        (fun p => (PyKey.str p.1, p.2))) := by
  rw [jsonToPy]
  congr 2
  exact congrArg buildDict (List.attach_map_coe kvs (fun kv => (kv.1, jsonToPy kv.2)))

/-- bot.py lines 357-367, `_save_chat_history_sync`: serialising the store
writes the JSON value `pyToJson store` to the history file. -/
def save_chat_history (store : PyVal) : Json := pyToJson store

/-- What reading the history file can produce: the file is absent, its text
is not JSON, or it parses to a JSON value. -/
inductive ReadOutcome where
  | missing
  | unparseable
  | parsed (j : Json)

/-- bot.py lines 316-339, `load_chat_history`: a missing file, a JSON parse
failure, or a parsed value that is not a dict all initialise the store to the
empty dict; a parsed dict becomes the store as is. -/
def load_chat_history : ReadOutcome → PyVal
  | .missing => .dict []
  | .unparseable => .dict []
  | .parsed j =>
    match jsonToPy j with
    | .dict m => .dict m
    | _ => .dict []

/-- Saving the store and then loading it back (bot.py lines 357-367 followed
by 316-339). -/
def saveThenLoad (store : PyVal) : PyVal :=
  load_chat_history (.parsed (save_chat_history store))

/-- A stored history entry is a `{role: r, content: c}` dict of strings
(the shape appended at bot.py lines 119-120). -/
def isValidTurn : PyVal → Bool
  | .dict [(.str "role", .str _), (.str "content", .str _)] => true
  | _ => false

/-- A valid channel history: a list of valid `{role, content}` entries. -/
def isValidHistory : PyVal → Bool
  | .list ts => ts.all isValidTurn
  | _ => false

/-! ## Link metadata resolver (bot.py lines 137-258)

The HTML soup is modelled by the fields the code reads from it: the `content`
attributes of the ranked meta tags (absent tag or absent attribute = `none`;
the code treats an empty string like an absent one via truthiness), the
`<title>` text, and the `src` attributes of all `<img src=...>` tags.
Network transport and `urllib.parse.urljoin` are oracle parameters. -/

/-- The parts of `urlparse(url)` the code reads. -/
structure UrlParts where
  path : String
  netloc : String

/-- The observable content of the parsed page. -/
structure Soup where
  ogTitle : Option String
  twitterTitle : Option String
  htmlTitle : Option String
  ogDesc : Option String
  twitterDesc : Option String
  metaDesc : Option String
  ogImage : Option String
  twitterImage : Option String
  imgSrcs : List String

/-- How a page fetch (`requests.get` + `raise_for_status`, bot.py lines
164-165) can fail: a timeout, an HTTP-level error (connection failure or a
non-2xx status raised by `raise_for_status`), or any other exception while
processing — the three `except` arms of bot.py lines 250-258. -/
inductive FetchErr where
  | timeout
  | httpError
  | otherError

/-- How an image fetch/decode (bot.py lines 140-146) can fail: network error,
timeout, non-2xx status, or an undecodable payload — all caught at line 147. -/
inductive ImgFail where
  | network
  | timeout
  | badStatus
  | undecodable

/-- bot.py lines 137-149, `get_image_dimensions`: the whole body sits in a
`try` whose `except` catches every exception and returns `None`; a successful
fetch-and-decode yields the pixel dimensions. -/
def get_image_dimensions (fetchImage : String → Except ImgFail (Nat × Nat))
    (url : String) : Option (Nat × Nat) :=
  match fetchImage url with
  | .ok wh => some wh
  | .error _ => none

/-- Python truthiness test `tag and tag.get(content)`: the value exists and
is non-empty. -/
def truthyOpt : Option String → Bool
  | some s => decide (s ≠ "")
  | none => false

/-- bot.py line 170: the fixed thematic placeholder title. -/
def placeholder_title : String := "‚ú® Celestial Link Preview ‚ú®"

/-- bot.py lines 170-178: ranked title sources — OG title, Twitter title,
HTML `<title>` — else the placeholder; the chosen content is stripped. -/
def resolveTagTitle (soup : Soup) : String :=
  if truthyOpt soup.ogTitle then pyStrip (soup.ogTitle.getD "")
  else if truthyOpt soup.twitterTitle then pyStrip (soup.twitterTitle.getD "")
  else if truthyOpt soup.htmlTitle then pyStrip (soup.htmlTitle.getD "")
  else placeholder_title

/-- bot.py lines 181-186: when the resolved title is empty, the placeholder,
or shorter than 5 characters, try to derive a title from the URL path's final
segment; the derived candidate (dashes/underscores turned into spaces) is
used, title-cased, only when the segment is longer than 2 characters and the
candidate length is strictly between 4 and 60.  Otherwise the title is left
as it was. -/
def titleWithFallback (title : String) (path : String) : String :=
  if title = "" ∨ title = placeholder_title ∨ title.length < 5 then
    let path_parts := pySplit path '/'
    let last := path_parts.getLastD ""
    if last ≠ "" ∧ last.length > 2 then
      let candidate_title := pyReplaceChar (pyReplaceChar last '-' ' ') '_' ' '
      if candidate_title.length > 4 ∧ candidate_title.length < 60 then
        pyTitle candidate_title
      else title
    else title
  else title

/-- bot.py lines 195-198: ranked description sources — OG, Twitter, generic
meta — else the empty string; the chosen content is stripped. -/
def resolveScrapedDesc (soup : Soup) : String :=
  if truthyOpt soup.ogDesc then pyStrip (soup.ogDesc.getD "")
  else if truthyOpt soup.twitterDesc then pyStrip (soup.twitterDesc.getD "")
  else if truthyOpt soup.metaDesc then pyStrip (soup.metaDesc.getD "")
  else ""

/-- bot.py line 202: the emoji-plus-space prefix of the wrapped description
(the literal before the interpolation in `f"<prefix>{scraped_desc[:300]}..."`). -/
def desc_lead : String := "üíñ "

/-- bot.py line 204: the fixed thematic filler description. -/
def filler_description : String :=
  "‚ú® Glimmering with cosmic insight. A refined experience. Mika\x27s touch ensures beauty and clarity. üíé"

/-- bot.py lines 201-204: a scraped description longer than 50 characters is
wrapped as prefix + first 300 characters + "..."; otherwise the filler is
used. -/
def formatScrapedDesc (scraped_desc : String) : String :=
  if scraped_desc ≠ "" ∧ scraped_desc.length > 50 then
    desc_lead ++ pySlice scraped_desc 300 ++ "..."
  else filler_description

/-- bot.py lines 190-204: full description resolution. -/
def resolveDescription (soup : Soup) : String :=
  formatScrapedDesc (resolveScrapedDesc soup)

/-- bot.py line 222/235: the recognised raster extensions. -/
def raster_exts : List String := [".jpg", ".jpeg", ".png", ".gif", ".webp", ".bmp"]

/-- bot.py line 222/235: `any(s.lower().endswith(ext) for ext in ...)`. -/
def hasRasterExt (s : String) : Bool :=
  raster_exts.any (fun ext => pyEndsWith (pyLower s) ext)

/-- bot.py lines 212-225: the ordered thumbnail candidate list — OG image
then Twitter image (stripped) when present and non-empty; only when both are
absent, the `<img>` tags whose `src` is non-empty, starts with `http`, has a
raster extension, and whose probed dimensions are both above 80 pixels. -/
def imageCandidates (dims : String → Option (Nat × Nat)) (soup : Soup) :
    List String :=
  let metas :=
    (if truthyOpt soup.ogImage then [pyStrip (soup.ogImage.getD "")] else []) ++
    (if truthyOpt soup.twitterImage then [pyStrip (soup.twitterImage.getD "")] else [])
  if metas ≠ [] then metas
  else
    soup.imgSrcs.filter (fun src =>
      decide (src ≠ "") && pyStartsWith src "http" && hasRasterExt src &&
        match dims src with
        | some wh => decide (wh.1 > 80) && decide (wh.2 > 80)
        | none => false)

/-- bot.py lines 229-231: a candidate not starting with `http` is made
absolute against the page URL with `urljoin`. -/
def processCandidate (urljoin : String → String → String) (pageUrl : String)
    (candidate : String) : String :=
  if pyStartsWith candidate "http" then candidate else urljoin pageUrl candidate

/-- bot.py line 234-235: the acceptance test of the selection loop. -/
def acceptableThumb (processed : String) : Bool :=
  (pyStartsWith processed "http://" || pyStartsWith processed "https://") &&
    hasRasterExt processed

/-- bot.py lines 228-237: walk the candidates in order and take the first
whose processed form passes the acceptance test. -/
def selectThumbnail (urljoin : String → String → String) (pageUrl : String)
    (candidates : List String) : Option String :=
  (candidates.map (processCandidate urljoin pageUrl)).find? acceptableThumb

/-- bot.py lines 239-240: the final guard re-checking the scheme of a chosen
thumbnail (`if thumbnail_url and not (... startswith ...): thumbnail_url = None`). -/
def thumbnailFinal : Option String → Option String
  | none => none
  | some t =>
    if t ≠ "" ∧ ¬(pyStartsWith t "http://" ∨ pyStartsWith t "https://")
    then none else some t

/-- The record returned by a successful resolution (bot.py lines 242-248). -/
structure LinkMetadata where
  url : String
  title : String
  description : String
  thumbnail_url : Option String
  site_domain : Option String
deriving DecidableEq, Repr

/-- bot.py lines 151-258, `get_link_metadata`.  The initial page fetch is the
oracle outcome `fetch`; any transport failure is caught at lines 250-258 and
becomes `none`.  On success every field resolves independently from the soup;
the image prober is the oracle `dims`, URL joining the oracle `urljoin`. -/
def get_link_metadata (fetch : Except FetchErr Soup)
    (dims : String → Option (Nat × Nat))
    (urljoin : String → String → String)
    (url : String) (parsed_url_base : UrlParts) : Option LinkMetadata :=
  match fetch with
  | .error _ => none
  | .ok soup =>
    some
      { url := url
        title := titleWithFallback (resolveTagTitle soup) parsed_url_base.path
        description := resolveDescription soup
        thumbnail_url :=
          thumbnailFinal (selectThumbnail urljoin url (imageCandidates dims soup))
        site_domain :=
          if parsed_url_base.netloc ≠ "" then some parsed_url_base.netloc else none }

/-! ## Preview composer description (bot.py lines 270-281) -/

/-- bot.py line 274: the filler marker phrases. -/
def filler_markers : List String :=
  ["celestial", "mika\x27s touch", "curated", "link resource", "beauty",
   "clarity", "found something lovely"]

/-- bot.py line 274: wrap when the description is shorter than 100 characters
or contains (lower-cased) one of the marker phrases. -/
def wrapCond (embed_description : String) : Bool :=
  decide (embed_description.length < 100) ||
    filler_markers.any (fun w => pyContains (pyLower embed_description) w)

/-- bot.py line 275. -/
def padding_top : String := "Hehe! ‚ú® Mika found something lovely for you! üíñ"

/-- bot.py line 276. -/
def padding_bottom : String :=
  "This is a little sparkle from the cosmos, just for you! üòâüåü"

/-- bot.py line 277: the wrapped description before truncation. -/
def combinedDesc (embed_description : String) : String :=
  padding_top ++ "\n\n" ++ embed_description ++ "\n\n" ++ padding_bottom

/-- bot.py line 280: the framed description of the non-wrap branch. -/
def framedDesc (title embed_description : String) : String :=
  "Oh! A " ++ title ++ "! Let me make it shine. ‚ú® " ++ embed_description

/-- bot.py lines 270-281: the description finally placed on the embed, from
the metadata title and description. -/
def embedDescription (title description : String) : String :=
  if wrapCond description then pySlice (combinedDesc description) 4093
  else
    let framed := framedDesc title description
    if framed.length > 4000 then pySlice framed 4093 ++ "..." else framed

/-! ## Derived definitions used by the statements -/

/-- A sequence of successful dialogue turns applied to one channel history:
fold of the append-and-trim step (bot.py lines 119-124). -/
def runAppends (h : List Turn) (ps : List (String × String)) : List Turn :=
  ps.foldl (fun acc p => appendAndTrim acc p.1 p.2) h

/-- Every turn stored anywhere in the store has role `"user"` or `"model"`. -/
def RolesOk (s : Store) : Prop :=
  ∀ p ∈ s, ∀ t ∈ p.2, t.role = "user" ∨ t.role = "model"

/-- Claim-side formulation of thumbnail selection: walk the candidates in
order, absolutise the ones not already absolute against the page URL, and
take the first whose resolved form starts with `http://` or `https://` and
ends with a raster extension. -/
def firstQualifyingThumb (urljoin : String → String → String)
    (pageUrl : String) (candidates : List String) : Option String :=
  (candidates.map
      (fun c => if pyStartsWith c "http" then c else urljoin pageUrl c)).find?
    (fun p => (pyStartsWith p "http://" || pyStartsWith p "https://") && hasRasterExt p)

/-- The Python value of one `{role: r, content: c}` entry. -/
def turnPy (r c : String) : PyVal :=
  .dict [(.str "role", .str r), (.str "content", .str c)]

/-- A 308-character scraped description on which the wrap-and-ellipsis
formatting of bot.py line 202 is the identity: the prefix repeated 61 times
followed by the three dots. -/
def period_desc : String := String.join (List.replicate 61 desc_lead) ++ "..."

/-! ## Helper lemmas -/

theorem pyTakeLast_length {α : Type} (n : Nat) (l : List α) :
    (pyTakeLast n l).length ≤ n := by
  simp [pyTakeLast]

theorem pyTakeLast_of_length_le {α : Type} {n : Nat} {l : List α}
    (h : l.length ≤ n) : pyTakeLast n l = l := by
  simp [pyTakeLast, List.take_of_length_le, h]

theorem take_append_take {α : Type} (n : Nat) (a b : List α) :
    (a ++ b.take n).take n = (a ++ b).take n := by
  rw [List.take_append_eq_append_take, List.take_append_eq_append_take, List.take_take,
    Nat.min_eq_left (Nat.sub_le n a.length)]

theorem pyTakeLast_append_left {α : Type} (n : Nat) (l m : List α) :
    pyTakeLast n (pyTakeLast n l ++ m) = pyTakeLast n (l ++ m) := by
  simp only [pyTakeLast, List.reverse_append, List.reverse_reverse]
  rw [take_append_take]

theorem mem_pyTakeLast {α : Type} {x : α} {n : Nat} {l : List α}
    (h : x ∈ pyTakeLast n l) : x ∈ l := by
  simp only [pyTakeLast, List.mem_reverse] at h
  have := List.take_subset n l.reverse h
  simpa using this

theorem appendAndTrim_eq (h : List Turn) (u a : String) :
    appendAndTrim h u a
      = pyTakeLast (MAX_HISTORY_TURNS * 2) (h ++ [⟨"user", u⟩, ⟨"model", a⟩]) := by
  by_cases hlen :
      (h ++ [(⟨"user", u⟩ : Turn), ⟨"model", a⟩]).length > MAX_HISTORY_TURNS * 2
  · simp only [appendAndTrim]
    rw [if_pos hlen]
  · simp only [appendAndTrim]
    rw [if_neg hlen]
    exact (pyTakeLast_of_length_le (by omega)).symm

theorem lookup_setStore_self (s : Store) (c : Int) (h : List Turn) :
    lookupStore (setStore s c h) c = some h := by
  induction s with
  | nil => simp [setStore, lookupStore]
  | cons p ps ih =>
    by_cases hc : p.1 = c
    · simp [setStore, lookupStore, hc]
    · simp [setStore, lookupStore, hc, ih]

theorem lookup_setStore_ne (s : Store) {c c' : Int} (h : List Turn)
    (hne : c' ≠ c) : lookupStore (setStore s c h) c' = lookupStore s c' := by
  induction s with
  | nil => simp [setStore, lookupStore, Ne.symm hne]
  | cons p ps ih =>
    by_cases hc : p.1 = c
    · simp [setStore, lookupStore, hc, Ne.symm hne]
    · simp [setStore, lookupStore, hc, ih]

theorem mem_setStore {p : Int × List Turn} {s : Store} {c : Int} {h : List Turn}
    (hmem : p ∈ setStore s c h) : p = (c, h) ∨ p ∈ s := by
  induction s with
  | nil => simpa [setStore] using hmem
  | cons q qs ih =>
    by_cases hc : q.1 = c
    · simp only [setStore, hc, if_pos, List.mem_cons] at hmem
      rcases hmem with h1 | h1
      · exact Or.inl h1
      · exact Or.inr (List.mem_cons_of_mem _ h1)
    · simp only [setStore, hc, if_false, ite_false, List.mem_cons] at hmem
      rcases hmem with h1 | h1
      · exact Or.inr (by simp [h1])
      · rcases ih h1 with h2 | h2
        · exact Or.inl h2
        · exact Or.inr (List.mem_cons_of_mem _ h2)

theorem lookup_mem {s : Store} {c : Int} {h : List Turn}
    (hl : lookupStore s c = some h) : (c, h) ∈ s := by
  induction s with
  | nil => simp [lookupStore] at hl
  | cons p ps ih =>
    by_cases hc : p.1 = c
    · simp only [lookupStore, hc, if_pos, Option.some.injEq] at hl
      subst hl
      rw [← hc]
      simp
    · simp only [lookupStore, hc, if_false, ite_false] at hl
      exact List.mem_cons_of_mem _ (ih hl)

/-! ## Claim theorems -/

/-- C2: bounded history.  For every channel history (however long, e.g. one
restored over-long from storage) and every non-empty sequence of appended
user/model pairs, the stored history afterwards is exactly the most recent
`2 × MAX_HISTORY_TURNS` entries of the arrival-ordered sequence (old entries
dropped from the front), and in particular its length is at most
`2 × MAX_HISTORY_TURNS` = 12. -/
theorem c2_bounded_history (h : List Turn) (ps : List (String × String))
    (hne : ps ≠ []) :
    runAppends h ps
      = pyTakeLast (MAX_HISTORY_TURNS * 2)
          (h ++ (ps.map (fun p => [(⟨"user", p.1⟩ : Turn), ⟨"model", p.2⟩])).flatten) ∧
    (runAppends h ps).length ≤ MAX_HISTORY_TURNS * 2 := by
  suffices heq : runAppends h ps
      = pyTakeLast (MAX_HISTORY_TURNS * 2)
          (h ++ (ps.map (fun p => [(⟨"user", p.1⟩ : Turn), ⟨"model", p.2⟩])).flatten) by
    exact ⟨heq, heq ▸ pyTakeLast_length _ _⟩
  induction ps generalizing h with
  | nil => exact absurd rfl hne
  | cons p ps' ih =>
    by_cases hps' : ps' = []
    · subst hps'
      simp [runAppends, appendAndTrim_eq]
    · have step : runAppends h (p :: ps') = runAppends (appendAndTrim h p.1 p.2) ps' := by
        simp [runAppends]
      rw [step, ih _ hps', appendAndTrim_eq, pyTakeLast_append_left]
      simp

theorem c2_bounded_history_witness :
    ([("a", "b")] : List (String × String)) ≠ [] ∧
    (runAppends [] [("a", "b")]
        = pyTakeLast (MAX_HISTORY_TURNS * 2)
            ([] ++ (([("a", "b")] : List (String × String)).map
              (fun p => [(⟨"user", p.1⟩ : Turn), ⟨"model", p.2⟩])).flatten) ∧
      (runAppends [] [("a", "b")]).length ≤ MAX_HISTORY_TURNS * 2) :=
  ⟨by decide, c2_bounded_history [] [("a", "b")] (by decide)⟩

/-- On a failed completion call the orchestrator returns the apology and the
store is unchanged except for the possible registration of the channel with
an empty history (bot.py line 91). -/
theorem get_gemini_response_fail_eq
    (completion : List Turn → String → Option String)
    (mentionId mentionName prompt : String) (store : Store) (c : Int)
    (hclean : clean_message_content mentionId mentionName prompt ≠ "")
    (hfail : completion (histOf store c)
        (clean_message_content mentionId mentionName prompt) = none) :
    get_gemini_response completion mentionId mentionName store prompt c
      = (apology_message,
         if (lookupStore store c).isNone then setStore store c [] else store) := by
  simp only [get_gemini_response]
  rw [if_neg hclean]
  cases hl : lookupStore store c with
  | none =>
    have hfail' : completion []
        (clean_message_content mentionId mentionName prompt) = none := by
      have hh : histOf store c = [] := by simp [histOf, hl]
      rw [← hh]
      exact hfail
    simp only [hl, Option.isNone_none, ite_true, lookup_setStore_self,
      Option.getD_some, hfail']
  | some h0 =>
    have hfail' : completion h0
        (clean_message_content mentionId mentionName prompt) = none := by
      have hh : histOf store c = h0 := by simp [histOf, hl]
      rw [← hh]
      exact hfail
    simp [hl, hfail']

/-- C3: failure atomicity.  When the completion call fails (and the cleaned
message is non-empty, so the call is actually attempted), the orchestrator
returns exactly the fixed apology string, and the history of every channel is
afterwards what it was before: nothing appended, nothing trimmed. -/
theorem c3_failure_atomicity
    (completion : List Turn → String → Option String)
    (mentionId mentionName prompt : String) (store : Store) (c : Int)
    (hclean : clean_message_content mentionId mentionName prompt ≠ "")
    (hfail : completion (histOf store c)
        (clean_message_content mentionId mentionName prompt) = none) :
    (get_gemini_response completion mentionId mentionName store prompt c).1
        = apology_message ∧
    ∀ ch, histOf (get_gemini_response completion mentionId mentionName store prompt c).2 ch
        = histOf store ch := by
  rw [get_gemini_response_fail_eq completion mentionId mentionName prompt store c
    hclean hfail]
  refine ⟨rfl, fun ch => ?_⟩
  cases hl : lookupStore store c with
  | none =>
    simp only [hl, Option.isNone_none, ite_true]
    by_cases hch : ch = c
    · subst hch
      simp [histOf, lookup_setStore_self, hl]
    · simp [histOf, lookup_setStore_ne _ _ hch]
  | some h0 =>
    simp [hl]

theorem c3_failure_atomicity_witness :
    clean_message_content "<@1>" "@Mika" "hi" ≠ "" ∧
    ((get_gemini_response (fun _ _ => none) "<@1>" "@Mika" [] "hi" 3).1
        = apology_message ∧
      ∀ ch, histOf (get_gemini_response (fun _ _ => none) "<@1>" "@Mika" [] "hi" 3).2 ch
          = histOf ([] : Store) ch) :=
  ⟨by decide,
   c3_failure_atomicity (fun _ _ => none) "<@1>" "@Mika" "hi" [] 3 (by decide) rfl⟩

/-- C4: composer description bound.  For every metadata title and
description, the description placed on the embed is at most 4096 characters:
the wrap branch hard-truncates the padded text to 4093 characters, and the
framing branch truncates to 4093 characters plus the three-dot ellipsis
whenever the framed text exceeds 4000 characters. -/
theorem c4_composer_description_bound (title description : String) :
    (embedDescription title description).length ≤ 4096 ∧
    embedDescription title description =
      (if wrapCond description then pySlice (combinedDesc description) 4093
       else if (framedDesc title description).length > 4000
            then pySlice (framedDesc title description) 4093 ++ "..."
            else framedDesc title description) := by
  have hslice : ∀ (s : String) (n : Nat), (pySlice s n).length ≤ n := by
    intro s n
    show (s.data.take n).length ≤ n
    simp
  refine ⟨?_, rfl⟩
  simp only [embedDescription]
  split
  · exact le_trans (hslice _ _) (by omega)
  · split
    · rw [String.length_append]
      have h1 := hslice (framedDesc title description) 4093
      have h3 : ("..." : String).length = 3 := rfl
      omega
    · next hle => omega

theorem string_eq_empty_iff (s : String) : s = "" ↔ s.length = 0 := by
  cases s with
  | mk l =>
    constructor
    · intro h
      rw [h]
      rfl
    · intro h
      have hl : l = [] := List.length_eq_zero.mp h
      rw [hl]

/-- C5 counterexample: with a ranked-source title `"Hi"` (shorter than 5
characters, so the fallback triggers) and the path `"/"` (whose final segment
derives no acceptable candidate), the resolver keeps `"Hi"` — it does not
fall back to the thematic placeholder as the claim states. -/
theorem c5_title_fallback_counterexample :
    ("Hi".length < 5) ∧ titleWithFallback "Hi" "/" = "Hi" ∧
      "Hi" ≠ placeholder_title := by
  refine ⟨by decide, by decide, by decide⟩

/-- C5 (amended): whenever the title resolved from the ranked tag sources is
empty, the placeholder, or shorter than 5 characters, the resolver uses the
title-cased candidate derived from the URL's final path segment
(dashes/underscores replaced with spaces) exactly when that candidate is
between 5 and 59 characters long, and otherwise keeps the previously
resolved title unchanged (which is the placeholder exactly when no tag
source yielded one). -/
theorem c5_title_fallback_amended (title path : String)
    (htrigger : title = "" ∨ title = placeholder_title ∨ title.length < 5) :
    titleWithFallback title path =
      (let candidate :=
        pyReplaceChar (pyReplaceChar ((pySplit path '/').getLastD "") '-' ' ') '_' ' '
       if 5 ≤ candidate.length ∧ candidate.length ≤ 59 then pyTitle candidate
       else title) := by
  have hlen1 : ∀ (s : String) (a b : Char), (pyReplaceChar s a b).length = s.length := by
    intro s a b
    show (s.data.map _).length = s.data.length
    simp
  simp only [titleWithFallback]
  rw [if_pos htrigger]
  set last := (pySplit path '/').getLastD "" with hlast
  set candidate := pyReplaceChar (pyReplaceChar last '-' ' ') '_' ' ' with hcand
  have hcl : candidate.length = last.length := by rw [hcand, hlen1, hlen1]
  by_cases hcond : 5 ≤ candidate.length ∧ candidate.length ≤ 59
  · have hlast_ne : last ≠ "" := by
      rw [Ne, string_eq_empty_iff]
      omega
    rw [if_pos hcond, if_pos (⟨hlast_ne, by omega⟩ : last ≠ "" ∧ last.length > 2),
      if_pos (by omega : candidate.length > 4 ∧ candidate.length < 60)]
  · rw [if_neg hcond]
    by_cases h1 : last ≠ "" ∧ last.length > 2
    · have hnot : ¬(candidate.length > 4 ∧ candidate.length < 60) := by
        intro h2
        exact hcond ⟨by omega, by omega⟩
      rw [if_pos h1, if_neg hnot]
    · rw [if_neg h1]

theorem c5_title_fallback_witness :
    (("" : String) = "" ∨ ("" : String) = placeholder_title ∨ ("" : String).length < 5) ∧
    titleWithFallback "" "/my-cool-page" =
      (let candidate :=
        pyReplaceChar (pyReplaceChar ((pySplit "/my-cool-page" '/').getLastD "") '-' ' ') '_' ' '
       if 5 ≤ candidate.length ∧ candidate.length ≤ 59 then pyTitle candidate
       else "") :=
  ⟨Or.inl rfl, c5_title_fallback_amended "" "/my-cool-page" (Or.inl rfl)⟩

theorem get_gemini_response_empty_eq
    (completion : List Turn → String → Option String)
    (mentionId mentionName prompt : String) (store : Store) (c : Int)
    (hcl : clean_message_content mentionId mentionName prompt = "") :
    get_gemini_response completion mentionId mentionName store prompt c
      = ("", store) := by
  simp only [get_gemini_response]
  rw [if_pos hcl]

theorem get_gemini_response_success_eq
    (completion : List Turn → String → Option String)
    (mentionId mentionName prompt : String) (store : Store) (c : Int) (text : String)
    (hclean : clean_message_content mentionId mentionName prompt ≠ "")
    (hsucc : completion (histOf store c)
        (clean_message_content mentionId mentionName prompt) = some text) :
    get_gemini_response completion mentionId mentionName store prompt c
      = (text,
         setStore (if (lookupStore store c).isNone then setStore store c [] else store) c
           (appendAndTrim (histOf store c)
             (clean_message_content mentionId mentionName prompt) text)) := by
  simp only [get_gemini_response]
  rw [if_neg hclean]
  cases hl : lookupStore store c with
  | none =>
    have hh : histOf store c = [] := by simp [histOf, hl]
    have hsucc' : completion []
        (clean_message_content mentionId mentionName prompt) = some text := by
      rw [← hh]
      exact hsucc
    simp [hl, hsucc', hh, lookup_setStore_self]
  | some h0 =>
    have hh : histOf store c = h0 := by simp [histOf, hl]
    have hsucc' : completion h0
        (clean_message_content mentionId mentionName prompt) = some text := by
      rw [← hh]
      exact hsucc
    simp [hl, hsucc', hh]

theorem rolesOk_histOf {s : Store} (hr : RolesOk s) (c : Int) :
    ∀ t ∈ histOf s c, t.role = "user" ∨ t.role = "model" := by
  intro t ht
  unfold histOf at ht
  cases hl : lookupStore s c with
  | none =>
    rw [hl] at ht
    simp at ht
  | some h0 =>
    rw [hl] at ht
    simp only [Option.getD_some] at ht
    exact hr _ (lookup_mem hl) t ht

theorem rolesOk_setStore {s : Store} {c : Int} {h : List Turn}
    (hr : RolesOk s) (hh : ∀ t ∈ h, t.role = "user" ∨ t.role = "model") :
    RolesOk (setStore s c h) := by
  intro p hp t ht
  rcases mem_setStore hp with h1 | h1
  · rw [h1] at ht
    exact hh t ht
  · exact hr p h1 t ht

theorem rolesOk_register {store : Store} (c : Int) (hr : RolesOk store) :
    RolesOk (if (lookupStore store c).isNone then setStore store c [] else store) := by
  split
  · exact rolesOk_setStore hr (by simp)
  · exact hr

/-- C6 counterexample: a successful invocation stores the assistant reply
under the role string `"model"`, which is neither `"user"` nor
`"assistant"` — the claim's role enumeration does not match the stored
data. -/
theorem c6_turn_roles_counterexample :
    (⟨"model", "Yo!"⟩ : Turn) ∈
        histOf (get_gemini_response (fun _ _ => some "Yo!") "<@1>" "@Mika" [] "hi" 7).2 7 ∧
    Turn.role ⟨"model", "Yo!"⟩ ≠ "user" ∧
    Turn.role ⟨"model", "Yo!"⟩ ≠ "assistant" := by
  refine ⟨by decide, by decide, by decide⟩

/-- C6 (amended): every history entry ever stored by the context manager has
role `"user"` or `"model"` (the assistant role is spelled `"model"`), and
each successful dialogue invocation appends exactly one user turn
immediately followed by one model-role turn carrying the reply (subject to
the usual front trimming). -/
theorem c6_turn_roles_amended
    (completion : List Turn → String → Option String)
    (mentionId mentionName prompt : String) (store : Store) (c : Int)
    (hroles : RolesOk store) :
    RolesOk (get_gemini_response completion mentionId mentionName store prompt c).2 ∧
    (∀ text, completion (histOf store c)
          (clean_message_content mentionId mentionName prompt) = some text →
       clean_message_content mentionId mentionName prompt ≠ "" →
       histOf (get_gemini_response completion mentionId mentionName store prompt c).2 c
         = pyTakeLast (MAX_HISTORY_TURNS * 2)
             (histOf store c ++
               [⟨"user", clean_message_content mentionId mentionName prompt⟩,
                ⟨"model", text⟩])) := by
  by_cases hcl : clean_message_content mentionId mentionName prompt = ""
  · rw [get_gemini_response_empty_eq completion mentionId mentionName prompt store c hcl]
    exact ⟨hroles, fun text _ hne => absurd hcl hne⟩
  · cases hc : completion (histOf store c)
        (clean_message_content mentionId mentionName prompt) with
    | none =>
      rw [get_gemini_response_fail_eq completion mentionId mentionName prompt store c hcl hc]
      refine ⟨rolesOk_register c hroles, ?_⟩
      intro text hcomp
      exact absurd hcomp (by simp)
    | some t =>
      rw [get_gemini_response_success_eq completion mentionId mentionName prompt store c t
        hcl hc]
      constructor
      · apply rolesOk_setStore (rolesOk_register c hroles)
        intro x hx
        rw [appendAndTrim_eq] at hx
        have hx' := mem_pyTakeLast hx
        rw [List.mem_append] at hx'
        rcases hx' with h1 | h1
        · exact rolesOk_histOf hroles c x h1
        · simp only [List.mem_cons, List.mem_singleton] at h1
          rcases h1 with h1 | h1 | h1
          · rw [h1]
            exact Or.inl rfl
          · rw [h1]
            exact Or.inr rfl
          · exact absurd h1 (List.not_mem_nil x)
      · intro text hcomp hne
        have htx : t = text := Option.some.inj hcomp
        subst htx
        show (lookupStore (setStore _ c _) c).getD [] = _
        rw [lookup_setStore_self, Option.getD_some, appendAndTrim_eq]

theorem c6_turn_roles_witness :
    RolesOk ([] : Store) ∧
    histOf (get_gemini_response (fun _ _ => some "Yo!") "<@1>" "@Mika" [] "hi" 7).2 7
      = pyTakeLast (MAX_HISTORY_TURNS * 2)
          (histOf ([] : Store) 7 ++
            [⟨"user", clean_message_content "<@1>" "@Mika" "hi"⟩, ⟨"model", "Yo!"⟩]) :=
  ⟨fun p hp => absurd hp (List.not_mem_nil p),
   (c6_turn_roles_amended (fun _ _ => some "Yo!") "<@1>" "@Mika" "hi" [] 7
       (fun p hp => absurd hp (List.not_mem_nil p))).2 "Yo!" rfl (by decide)⟩

/-- C7: transport failures are absorbed.  A failed page fetch (timeout,
connection/HTTP error, or any other exception) makes the metadata resolver
return `none` rather than raise, and a failed image fetch (network error,
timeout, bad status, undecodable payload) makes the image prober return
`none` rather than raise. -/
theorem c7_transport_absorbed :
    (∀ (e : FetchErr) (dims : String → Option (Nat × Nat))
        (urljoin : String → String → String) (url : String) (parts : UrlParts),
        get_link_metadata (.error e) dims urljoin url parts = none) ∧
    (∀ (fetchImage : String → Except ImgFail (Nat × Nat)) (url : String) (e : ImgFail),
        fetchImage url = .error e → get_image_dimensions fetchImage url = none) := by
  constructor
  · intro e dims urljoin url parts
    rfl
  · intro fetchImage url e hfail
    simp [get_image_dimensions, hfail]

theorem c7_transport_absorbed_witness :
    get_link_metadata (.error .timeout) (fun _ => none) (fun _ r => r) "u" ⟨"", ""⟩ = none ∧
    get_image_dimensions (fun _ => .error .timeout) "u" = none :=
  ⟨c7_transport_absorbed.1 .timeout (fun _ => none) (fun _ r => r) "u" ⟨"", ""⟩,
   c7_transport_absorbed.2 (fun _ => .error .timeout) "u" .timeout rfl⟩

/-- C8: thumbnail selection.  On a successful fetch the resolver returns a
record whose thumbnail is exactly the first candidate (walked in order,
relative ones absolutised against the page URL) whose resolved form starts
with `http://` or `https://` and ends in a raster extension — `none` when no
candidate qualifies — while the title, description and domain fields are
resolved independently of the candidates. -/
theorem c8_thumbnail_selection (soup : Soup) (dims : String → Option (Nat × Nat))
    (urljoin : String → String → String) (url : String) (parts : UrlParts) :
    get_link_metadata (.ok soup) dims urljoin url parts
      = some { url := url
               title := titleWithFallback (resolveTagTitle soup) parts.path
               description := resolveDescription soup
               thumbnail_url := firstQualifyingThumb urljoin url (imageCandidates dims soup)
               site_domain := if parts.netloc ≠ "" then some parts.netloc else none } := by
  have hsel : selectThumbnail urljoin url (imageCandidates dims soup)
      = firstQualifyingThumb urljoin url (imageCandidates dims soup) := rfl
  have hfinal : thumbnailFinal (selectThumbnail urljoin url (imageCandidates dims soup))
      = selectThumbnail urljoin url (imageCandidates dims soup) := by
    cases hf : selectThumbnail urljoin url (imageCandidates dims soup) with
    | none => rfl
    | some t =>
      have hacc : acceptableThumb t = true := List.find?_some hf
      simp only [acceptableThumb, Bool.and_eq_true, Bool.or_eq_true] at hacc
      simp only [thumbnailFinal]
      rw [if_neg]
      intro hcontra
      exact hcontra.2 hacc.1
  simp only [get_link_metadata]
  rw [hfinal, hsel]

/-- C9: permissive load.  A missing history file, unparseable JSON, or a
parsed value that is not an object all initialise the store to the empty
dict without failing; a parsed object becomes the store unchanged (as the
corresponding Python dict). -/
theorem c9_permissive_load :
    load_chat_history .missing = .dict [] ∧
    load_chat_history .unparseable = .dict [] ∧
    (∀ s, load_chat_history (.parsed (.str s)) = .dict []) ∧
    (∀ n, load_chat_history (.parsed (.int n)) = .dict []) ∧
    (∀ xs, load_chat_history (.parsed (.arr xs)) = .dict []) ∧
    (∀ kvs, load_chat_history (.parsed (.obj kvs)) = jsonToPy (.obj kvs)) := by
  refine ⟨rfl, rfl, fun s => ?_, fun n => ?_, fun xs => ?_, fun kvs => ?_⟩
  · simp [load_chat_history, jsonToPy]
  · simp [load_chat_history, jsonToPy]
  · simp [load_chat_history, jsonToPy_arr]
  · simp [load_chat_history, jsonToPy_obj]

theorem buildDict_go (l : List (String × PyVal)) :
    ∀ acc : List (String × PyVal),
      (acc.map Prod.fst ++ l.map Prod.fst).Nodup →
      l.foldl (fun acc p => insertEntry acc p.1 p.2) acc = acc ++ l := by
  induction l with
  | nil =>
    intro acc _
    simp
  | cons p t ih =>
    intro acc h
    have hdisj : (acc.map Prod.fst).Disjoint (p.1 :: t.map Prod.fst) := by
      simpa using List.disjoint_of_nodup_append h
    have hknot : p.1 ∉ acc.map Prod.fst := fun hmem =>
      hdisj hmem (List.mem_cons_self _ _)
    have hins : insertEntry acc p.1 p.2 = acc ++ [p] := by
      unfold insertEntry
      rw [if_neg]
      simp only [List.any_eq_true, decide_eq_true_eq, not_exists]
      intro q hq
      rcases hq with ⟨hqmem, hqeq⟩
      exact hknot (hqeq ▸ List.mem_map_of_mem Prod.fst hqmem)
    have h' : ((acc ++ [p]).map Prod.fst ++ t.map Prod.fst).Nodup := by
      simp only [List.map_append, List.map_cons, List.map_nil, List.append_assoc,
        List.singleton_append]
      simpa [List.append_assoc] using h
    calc (p :: t).foldl (fun acc q => insertEntry acc q.1 q.2) acc
        = t.foldl (fun acc q => insertEntry acc q.1 q.2) (acc ++ [p]) := by
          simp [List.foldl_cons, hins]
      _ = (acc ++ [p]) ++ t := ih (acc ++ [p]) h'
      _ = acc ++ p :: t := by simp

theorem buildDict_nodup {l : List (String × PyVal)}
    (h : (l.map Prod.fst).Nodup) : buildDict l = l := by
  have := buildDict_go l [] (by simpa using h)
  simpa [buildDict] using this

theorem roundtrip_turn {t : PyVal} (h : isValidTurn t = true) :
    jsonToPy (pyToJson t) = t := by
  unfold isValidTurn at h
  split at h
  · next r c =>
    rw [pyToJson_dict]
    simp only [List.map_cons, List.map_nil, keyToString]
    rw [jsonToPy_obj]
    simp [pyToJson, jsonToPy, buildDict, insertEntry]
  · exact absurd h (by simp)

theorem roundtrip_history {v : PyVal} (h : isValidHistory v = true) :
    jsonToPy (pyToJson v) = v := by
  unfold isValidHistory at h
  split at h
  · next ts =>
    rw [pyToJson_list, jsonToPy_arr, List.map_map]
    have hts : ∀ x ∈ ts, (jsonToPy ∘ pyToJson) x = id x := by
      intro x hx
      rw [List.all_eq_true] at h
      exact roundtrip_turn (h x hx)
    rw [List.map_congr_left hts, List.map_id]
  · exact absurd h (by simp)

theorem saveThenLoad_dict (m : List (PyKey × PyVal))
    (hvalid : ∀ kv ∈ m, isValidHistory kv.2 = true)
    (hkeys : (m.map (fun kv => keyToString kv.1)).Nodup) :
    saveThenLoad (.dict m)
      = .dict (m.map (fun kv => (PyKey.str (keyToString kv.1), kv.2))) := by
  unfold saveThenLoad save_chat_history
  rw [pyToJson_dict]
  have hload :
      load_chat_history
          (.parsed (.obj (m.map (fun kv => (keyToString kv.1, pyToJson kv.2)))))
        = jsonToPy (.obj (m.map (fun kv => (keyToString kv.1, pyToJson kv.2)))) := by
    simp [load_chat_history, jsonToPy_obj]
  rw [hload, jsonToPy_obj, List.map_map]
  have hentries :
      m.map ((fun kv => ((kv.1, jsonToPy kv.2) : String × PyVal)) ∘
          (fun kv => ((keyToString kv.1, pyToJson kv.2) : String × Json)))
        = m.map (fun kv => (keyToString kv.1, kv.2)) := by
    apply List.map_congr_left
    intro kv hkv
    simp only [Function.comp_apply]
    rw [roundtrip_history (hvalid kv hkv)]
  rw [hentries]
  rw [buildDict_nodup (by simpa [List.map_map, Function.comp] using hkeys)]
  rw [List.map_map]
  rfl

/-- C1 counterexample: a store holding one valid history under the integer
channel id `1` does not survive save-then-load unchanged — the entry comes
back under the string key `"1"`, not under the integer id. -/
theorem c1_roundtrip_counterexample :
    isValidHistory (.list [turnPy "user" "hi", turnPy "model" "hey"]) = true ∧
    saveThenLoad (.dict [(.int 1, .list [turnPy "user" "hi", turnPy "model" "hey"])])
      ≠ .dict [(.int 1, .list [turnPy "user" "hi", turnPy "model" "hey"])] := by
  constructor
  · decide
  · rw [saveThenLoad_dict [(.int 1, .list [turnPy "user" "hi", turnPy "model" "hey"])]
      (by decide) (by decide)]
    simp

/-- C1 (amended): for any store of valid `{role, content}` histories whose
stringified channel keys are pairwise distinct, saving and then loading
reproduces the same mapping of channel to turn sequence, with every key
replaced by its decimal string form — in particular a history appended under
an integer channel id is found again under the string of that id, not under
the integer itself. -/
theorem c1_roundtrip_amended (m : List (PyKey × PyVal))
    (hvalid : ∀ kv ∈ m, isValidHistory kv.2 = true)
    (hkeys : (m.map (fun kv => keyToString kv.1)).Nodup) :
    saveThenLoad (.dict m)
      = .dict (m.map (fun kv => (PyKey.str (keyToString kv.1), kv.2))) :=
  saveThenLoad_dict m hvalid hkeys

theorem c1_roundtrip_witness :
    (∀ kv ∈ ([(PyKey.int 1, PyVal.list [turnPy "user" "hi", turnPy "model" "hey"])] :
        List (PyKey × PyVal)), isValidHistory kv.2 = true) ∧
    (([(PyKey.int 1, PyVal.list [turnPy "user" "hi", turnPy "model" "hey"])] :
        List (PyKey × PyVal)).map (fun kv => keyToString kv.1)).Nodup ∧
    saveThenLoad (.dict [(PyKey.int 1, PyVal.list [turnPy "user" "hi", turnPy "model" "hey"])])
      = .dict (([(PyKey.int 1, PyVal.list [turnPy "user" "hi", turnPy "model" "hey"])] :
          List (PyKey × PyVal)).map (fun kv => (PyKey.str (keyToString kv.1), kv.2))) :=
  ⟨by decide, by decide,
   c1_roundtrip_amended [(PyKey.int 1, PyVal.list [turnPy "user" "hi", turnPy "model" "hey"])]
     (by decide) (by decide)⟩

/-- C10 counterexample: the 308-character scraped description
`period_desc` — the wrap prefix repeated 61 times followed by three dots —
is longer than 50 characters, and the wrap branch maps it to itself: the
claim that the output never equals the raw scraped text is false. -/
theorem c10_scraped_description_counterexample :
    period_desc.length > 50 ∧ formatScrapedDesc period_desc = period_desc := by
  constructor
  · decide
  · decide

/-- C10 (amended): for every scraped description longer than 50 characters
the resolver's output is exactly the fixed emoji prefix, the first
`min(300, length)` characters of the scraped text, and the three-character
ellipsis, appended unconditionally; its length is bounded by the prefix
length plus 303, and it differs from the raw scraped text whenever that text
does not have exactly prefix-length-plus-303 characters. -/
theorem c10_scraped_description_amended (s : String) (h : s.length > 50) :
    formatScrapedDesc s = desc_lead ++ pySlice s 300 ++ "..." ∧
    (formatScrapedDesc s).length ≤ desc_lead.length + 303 ∧
    (s.length ≠ desc_lead.length + 303 → formatScrapedDesc s ≠ s) := by
  have hne : s ≠ "" := by
    rw [Ne, string_eq_empty_iff]
    omega
  have heq : formatScrapedDesc s = desc_lead ++ pySlice s 300 ++ "..." := by
    unfold formatScrapedDesc
    rw [if_pos ⟨hne, h⟩]
  have hsl : (pySlice s 300).length = min 300 s.length := by
    show (s.data.take 300).length = min 300 s.length
    rw [List.length_take]
    rfl
  have hlen : (formatScrapedDesc s).length = desc_lead.length + min 300 s.length + 3 := by
    rw [heq, String.length_append, String.length_append, hsl]
    rfl
  refine ⟨heq, ?_, ?_⟩
  · rw [hlen]
    have := Nat.min_le_left 300 s.length
    omega
  · intro hnefix hcontra
    have hsame : s.length = (formatScrapedDesc s).length := by rw [hcontra]
    rw [hlen] at hsame
    rcases Nat.le_total s.length 300 with hle | hge
    · rw [Nat.min_eq_right hle] at hsame
      omega
    · rw [Nat.min_eq_left hge] at hsame
      omega

theorem c10_scraped_description_witness :
    (String.mk (List.replicate 60 'a')).length > 50 ∧
    (formatScrapedDesc (String.mk (List.replicate 60 'a'))
        = desc_lead ++ pySlice (String.mk (List.replicate 60 'a')) 300 ++ "..." ∧
      (formatScrapedDesc (String.mk (List.replicate 60 'a'))).length
          ≤ desc_lead.length + 303 ∧
      ((String.mk (List.replicate 60 'a')).length ≠ desc_lead.length + 303 →
        formatScrapedDesc (String.mk (List.replicate 60 'a'))
          ≠ String.mk (List.replicate 60 'a'))) :=
  ⟨by decide, c10_scraped_description_amended _ (by decide)⟩
